import Mathlib

/-!
Verification of the mapping-DSL parsers and the deterministic PL/SQL code
generator of the data-migration tool (src/app.py), as a shallow embedding.

Python strings are modelled as Lean `String` (lists of characters, ASCII);
Python `dict`s keyed by strings are modelled as association lists with
Python's insertion-order/overwrite semantics; a Python dict row with
possibly-missing fields is modelled as a structure of `Option String`
fields (`none` = key absent, matching `dict.get(key, default)`).
All functions are total, matching the fact that the Python code paths
modelled here cannot raise on string inputs.
-/

namespace MigrationAI

/-- The single-quote character, written via its code point. -/
def sq : Char := Char.ofNat 39

/-- One-character string holding a single quote. -/
def sqs : String := String.mk [sq]

/-! ### Python string primitives on `List Char` -/

/-- If `p` is a leading segment of `l`, return the remainder (`l` with `p` removed). -/
def stripPre : List Char → List Char → Option (List Char)
  | [], l => some l
  | _ :: _, [] => none
  | p :: ps, c :: cs => if p = c then stripPre ps cs else none

/-- Python's `pat in s` substring test, on character lists. -/
def hasSubL (p : List Char) : List Char → Bool
  | [] => (stripPre p []).isSome
  | c :: cs => (stripPre p (c :: cs)).isSome || hasSubL p cs

/-- Prepend a character to the first chunk of a split result. -/
def consHead (c : Char) : List (List Char) → List (List Char)
  | [] => [[c]]
  | h :: t => (c :: h) :: t

/-- Python `str.split(sep)` scan with explicit fuel (`sep = c0 :: sep₁`,
always non-empty).  With fuel at least the length of the input this is
exactly Python's left-to-right non-overlapping split. -/
def splitGo (c0 : Char) (sep : List Char) : Nat → List Char → List (List Char)
  | _, [] => [[]]
  | 0, l => [l]
  | f + 1, c :: cs =>
    if c = c0 then
      match stripPre sep cs with
      | some rem => [] :: splitGo c0 sep f rem
      | none => consHead c (splitGo c0 sep f cs)
    else consHead c (splitGo c0 sep f cs)

/-- Python `str.split(sep)` on character lists (Python raises on an empty
separator; all separators used by the source are non-empty literals). -/
def splitL (sep l : List Char) : List (List Char) :=
  match sep with
  | [] => [l]
  | c0 :: sep1 => splitGo c0 sep1 l.length l

/-- Join chunks back with the separator (inverse of a full split). -/
def joinSep (sep : List Char) : List (List Char) → List Char
  | [] => []
  | [x] => x
  | x :: y :: ys => x ++ sep ++ joinSep sep (y :: ys)

/-- Python `str.split(sep, 1)`: split at the first occurrence only. -/
def split1L (sep l : List Char) : List (List Char) :=
  match splitL sep l with
  | [] => [l]
  | [a] => [a]
  | a :: rest => [a, joinSep sep rest]

/-- Python `str.strip()` (whitespace from both ends) on character lists. -/
def stripL (l : List Char) : List Char :=
  ((l.dropWhile Char.isWhitespace).reverse.dropWhile Char.isWhitespace).reverse

/-- A single- or double-quote character. -/
def isQuote (c : Char) : Bool := c = sq || c = '"'

/-- Python `str.strip("'"")`: remove ALL leading/trailing quote characters. -/
def stripQuotesL (l : List Char) : List Char :=
  ((l.dropWhile isQuote).reverse.dropWhile isQuote).reverse

/-- Python `str.startswith(p)` on character lists. -/
def startsWithL (p l : List Char) : Bool := (stripPre p l).isSome

/-- String-level wrappers used by the embedded source functions. -/
def pySplit (sep s : String) : List String := (splitL sep.data s.data).map String.mk

def pyStrip (s : String) : String := String.mk (stripL s.data)

def pyContains (s pat : String) : Bool := hasSubL pat.data s.data

def pyEndsWith (s suf : String) : Bool := startsWithL suf.data.reverse s.data.reverse

/-- Python `str.upper()` (ASCII; the source applies it to column names). -/
def pyUpper (s : String) : String := String.mk (s.data.map Char.toUpper)

/-- Python `str.lower()` (ASCII; the source applies it to table names). -/
def pyLower (s : String) : String := String.mk (s.data.map Char.toLower)

/-- Concatenation of a list of strings (the accumulated `+=` of a loop). -/
def joinAll : List String → String
  | [] => ""
  | x :: xs => x ++ joinAll xs

/-! ### Python dict (insertion-ordered, last-value-wins) as an assoc list -/

/-- `d[k] = v` on an insertion-ordered dict: overwrite in place if the key
exists (keeping its original position), else append at the end. -/
def dictSet (k : String) (v : α) : List (String × α) → List (String × α)
  | [] => [(k, v)]
  | (k2, v2) :: rest => if k2 = k then (k2, v) :: rest else (k2, v2) :: dictSet k v rest

/-- `k in d` / `d[k]` lookup. -/
def dictGet (k : String) : List (String × α) → Option α
  | [] => none
  | (k2, v) :: rest => if k2 = k then some v else dictGet k rest

/-! ### Data model -/

/-- One parsed transformation entry (`mappings[src_field]` in the source):
the Python dict always holds `dest_field` and holds `value_maps` only when
the clause had a `(MAP: ...)` part; `none` models the absent key. -/
structure ColumnTransform where
  dest_field : String
  value_maps : Option (List (String × String))
deriving Repr, DecidableEq

/-- One parsed related-insert directive.  The source supports a single
kind, `type == KEY`, so the tag is left implicit. -/
structure RelatedInsert where
  target_table : String
  key_column : String
  value_column : String
deriving Repr, DecidableEq

/-- One input mapping row: a generic field map; `none` models a key that
is absent from the Python dict (`item.get(field, default)`). -/
structure MappingRow where
  source_table : Option String := none
  target_table : Option String := none
  source_columns : Option String := none
  target_columns : Option String := none
  transformations : Option String := none
  where_condition : Option String := none
  related_inserts : Option String := none
deriving Repr, DecidableEq

/-- One generated unit (`scripts` entry in `generate_fallback_code`). -/
structure GeneratedUnit where
  filename : String
  code : String
  source_table : String
  target_table : String
deriving Repr, DecidableEq

/-! ### Transform clause parser (`process_transformations`, app.py:87-160) -/

def mapColon : List Char := ['M', 'A', 'P', ':']

def arrowL : List Char := ['-', '>']

def mapOpenL : List Char := ['(', 'M', 'A', 'P', ':']

/-- The clause splitter of `process_transformations` (app.py:97-114):
scan character by character; `(` increments the depth counter only when
the literal `MAP:` already occurs in the accumulated text, `)` decrements
it when positive, and `,` splits (appending the stripped accumulator)
only at depth zero; a non-empty trailing accumulator is appended stripped. -/
def splitTransGo : List Char → List Char → Nat → List (List Char)
  | [], temp, _ => if temp.isEmpty then [] else [stripL temp]
  | c :: rest, temp, depth =>
    let d := if c = '(' && hasSubL mapColon temp then depth + 1
             else if c = ')' && depth > 0 then depth - 1
             else depth
    if c = ',' && d = 0 then stripL temp :: splitTransGo rest [] d
    else splitTransGo rest (temp ++ [c]) d

/-- Per-clause parsing (the body of the `for transform in transformations`
loop, app.py:118-158).  A clause without `->` is skipped (`none`); the
`len(src_dest_parts) != 2` check of the source is unreachable after the
`'->' in transform` test and corresponds to the catch-all `none` arms. -/
def parseTransformClause (t : List Char) : Option (String × ColumnTransform) :=
  if hasSubL arrowL t then
    match split1L arrowL t with
    | [a, b] =>
      let src_field := stripL a
      let dest_part := stripL b
      if hasSubL mapOpenL dest_part then
        match split1L mapOpenL dest_part with
        | [d0, m] =>
          let dest_field := stripL d0
          -- app.py:133-134: remove a single trailing ')' if present, then strip
          let map_part := if startsWithL [')'] m.reverse then stripL m.dropLast else m
          -- app.py:137-146: comma-separated 'val'->'val' pairs into value_maps
          let value_maps := (splitL [','] map_part).foldl (fun acc item =>
            if hasSubL arrowL item then
              match split1L arrowL item with
              | [x, y] => dictSet (String.mk (stripQuotesL (stripL x)))
                  (String.mk (stripQuotesL (stripL y))) acc
              | _ => acc
            else acc) []
          some (String.mk src_field, ⟨String.mk dest_field, some value_maps⟩)
        | _ => none
      else
        some (String.mk src_field, ⟨String.mk dest_part, none⟩)
    | _ => none
  else none

/-- `process_transformations` (app.py:87-160); the `if not
transformations_str` early return coincides with the general path on the
empty string. -/
def process_transformationsL (l : List Char) : List (String × ColumnTransform) :=
  (splitTransGo l [] 0).foldl (fun acc t =>
    match parseTransformClause t with
    | some (k, ct) => dictSet k ct acc
    | none => acc) []

def process_transformations (s : String) : List (String × ColumnTransform) :=
  process_transformationsL s.data

/-! ### Related-insert directive parser (`process_related_inserts`, app.py:162-228) -/

def keyColonL : List Char := ['K', 'E', 'Y', ':']

/-- The first match of the regex `\(([^)]+)\)` (app.py:197): scan left to
right for a `(` followed by at least one non-`)` character and then a `)`;
on failure at one `(`, continue scanning after it. -/
def findParenGroup : List Char → Option (List Char)
  | [] => none
  | c :: rest =>
    if c = '(' then
      let content := rest.takeWhile (fun x => x != ')')
      if content.isEmpty then findParenGroup rest
      else if content.length < rest.length then some content
      else findParenGroup rest
    else findParenGroup rest

/-- Parsing of one (already stripped) `KEY:` instruction
(app.py:184-223).  Every `continue` of the source is a `none` arm. -/
def parseKeyInstructionCore (inst : List Char) : Option RelatedInsert :=
  let after_key := inst.drop 4
  match split1L ['('] after_key with
  | [tpart, rest1] =>
    let target_table := stripL tpart
    let key_value_part := '(' :: rest1
    match findParenGroup key_value_part with
    | some g =>
      let key_column := stripL g
      match split1L [')'] key_value_part with
      | [_, after2] =>
        let vc0 := stripL after2
        let value_column := if startsWithL [':'] vc0 then stripL (vc0.drop 1) else vc0
        -- app.py:215: `if key_column and value_column` (truthiness: non-empty);
        -- target_table is never tested.
        if key_column ≠ [] ∧ value_column ≠ [] then
          some ⟨String.mk target_table, String.mk key_column, String.mk value_column⟩
        else none
      | _ => none
    | none => none
  | _ => none

/-- `process_related_inserts` (app.py:162-228): split on bare commas, strip
each instruction, skip empty ones, parse `KEY:` instructions, ignore others. -/
def process_related_insertsL (l : List Char) : List RelatedInsert :=
  (splitL [','] l).filterMap (fun instr =>
    let instruction := stripL instr
    if instruction.isEmpty then none
    else if startsWithL keyColonL instruction then parseKeyInstructionCore instruction
    else none)

def process_related_inserts (s : String) : List RelatedInsert :=
  process_related_insertsL s.data

/-! ### Type inference heuristic (app.py:341-348) -/

/-- The inline per-column data type choice of the record declaration loop:
case-insensitive name tests in a fixed priority order, first match wins. -/
def inferColType (col : String) : String :=
  let u := pyUpper col
  if pyContains u "ID" || pyEndsWith u "_ID" then "NUMBER"
  else if pyContains u "DATE" || pyContains u "TIME" then "DATE"
  else if pyContains u "AMOUNT" || pyContains u "PRICE" || pyContains u "COST" then "NUMBER"
  else "VARCHAR2(4000)"

/-! ### Mapping normalization (app.py:279-311) -/

/-- `[col.strip() for col in cols if col.strip()]` (app.py:298-299). -/
def cleanCols (cols : List String) : List String :=
  (cols.map pyStrip).filter (fun c => !c.isEmpty)

/-- The generic placeholder column set (app.py:303). -/
def defaultSourceCols : List String := ["ID", "COLUMN1", "COLUMN2", "CREATED_DATE"]

/-- Target columns derived from transformations (app.py:306-311); the
`'dest_field' in transformations[src_col]` test of the source is always
true when the key is present, since both parser branches set it. -/
def resolveTargetCols (transf : List (String × ColumnTransform)) (srcCols : List String) :
    List String :=
  srcCols.map (fun c =>
    match dictGet c transf with
    | some ct => ct.dest_field
    | none => c)

/-- Column-list resolution of `generate_fallback_code` (app.py:279-311):
split, clean, default the source list when empty, derive the target list
from the transformations when empty. -/
def normalizedColumns (item : MappingRow) (transf : List (String × ColumnTransform)) :
    List String × List String :=
  let s0 := cleanCols (pySplit "," (item.source_columns.getD ""))
  let t0 := cleanCols (pySplit "," (item.target_columns.getD ""))
  let s := if s0.isEmpty then defaultSourceCols else s0
  let t := if t0.isEmpty && !s.isEmpty then resolveTargetCols transf s else t0
  (s, t)

/-! ### Script synthesis (app.py:317-509)

The Python builds one big string by `+=`; the embedding composes the same
text from chunk functions that mirror each `+=` site, with each
enumerate-with-commas loop embedded as a list of emitted lines. -/

/-- An `enumerate` loop emitting one line per element, with `,` appended
to every element except the last (`if i < len(...) - 1`). -/
def withCommas (mk : String → String) : List String → List String
  | [] => []
  | [c] => [mk c ++ "\n"]
  | c :: c2 :: rest => (mk c ++ ",\n") :: withCommas mk (c2 :: rest)

/-- Record field declarations (app.py:338-352). -/
def recordFieldLines (cols : List String) : List String :=
  withCommas (fun col => "      " ++ pyStrip col ++ " " ++ inferColType col) cols

/-- SELECT column list (app.py:365-369). -/
def selectColLines (cols : List String) : List String :=
  withCommas (fun col => "      " ++ pyStrip col) cols

/-- INSERT column list (app.py:444-448): one entry per TARGET column. -/
def insertColLines (tcols : List String) : List String :=
  withCommas (fun col => "          " ++ pyStrip col) tcols

/-- The value expression emitted for one source column (app.py:463-471):
a CASE expression when the column has a transform carrying `value_maps`
(one WHEN branch per map entry, in insertion order, ELSE the original
value), the bare source value otherwise. -/
def valueExpr (transf : List (String × ColumnTransform)) (src_col : String) : String :=
  match dictGet src_col transf with
  | some ct =>
    match ct.value_maps with
    | some vm =>
      (vm.foldl
        (fun acc p =>
          acc ++ "            WHEN " ++ sqs ++ p.1 ++ sqs ++ " THEN " ++ p.2 ++ "\n")
        ("CASE v_source_data(i)." ++ src_col ++ "\n"))
        ++ "            ELSE v_source_data(i)." ++ src_col ++ "\n          END"
    | none => "v_source_data(i)." ++ src_col
  | none => "v_source_data(i)." ++ src_col

/-- One emitted VALUES entry with its comma rule (app.py:460-475). -/
def valueEntryLine (transf : List (String × ColumnTransform)) (src_col : String)
    (tgtLen i : Nat) : String :=
  "          " ++ valueExpr transf src_col ++ (if i < tgtLen - 1 then ",\n" else "\n")

/-- The VALUES list loop (app.py:453-475): `enumerate(source_columns)`,
emitting an entry only while `i < len(target_columns)` (extra source
columns are silently dropped); the unused `tgt_col` binding of the source
is omitted. -/
def insertValueLines (transf : List (String × ColumnTransform)) (tgtLen : Nat) :
    Nat → List String → List String
  | _, [] => []
  | i, col :: rest =>
    if i < tgtLen then
      valueEntryLine transf (pyStrip col) tgtLen i :: insertValueLines transf tgtLen (i + 1) rest
    else insertValueLines transf tgtLen (i + 1) rest

/-- The per-directive MERGE block (app.py:406-426). -/
def keyMergeBlock (ri : RelatedInsert) : String :=
  "        -- Insert/update record in " ++ ri.target_table ++ " lookup table\n"
    ++ "        BEGIN\n"
    ++ "          MERGE INTO " ++ ri.target_table ++ " t\n"
    ++ "          USING (SELECT v_source_data(i)." ++ ri.key_column ++ " as key_val, \n"
    ++ "                       v_source_data(i)." ++ ri.value_column ++ " as value_val \n"
    ++ "                 FROM dual) s\n"
    ++ "          ON (t.migrt_key = s.key_val)\n"
    ++ "          WHEN MATCHED THEN\n"
    ++ "            UPDATE SET t.migrt_value = s.value_val\n"
    ++ "          WHEN NOT MATCHED THEN\n"
    ++ "            INSERT (migrt_key, migrt_value)\n"
    ++ "            VALUES (s.key_val, s.value_val);\n"
    ++ "          \n"
    ++ "          DBMS_OUTPUT.PUT_LINE(" ++ sqs ++ "Processed lookup record for key: " ++ sqs
    ++ " || v_source_data(i)." ++ ri.key_column ++ ");\n"
    ++ "        EXCEPTION\n"
    ++ "          WHEN OTHERS THEN\n"
    ++ "            v_error_message := SQLERRM;\n"
    ++ "            DBMS_OUTPUT.PUT_LINE(" ++ sqs ++ "Error during related insert to "
    ++ ri.target_table ++ ": " ++ sqs ++ " || v_error_message);\n"
    ++ "            -- Continue with the migration process\n"
    ++ "        END;\n"

/-- The related-inserts section (app.py:389-435): present only when the
parsed directive list is non-empty. -/
def relatedInsertsSection (related_inserts : List RelatedInsert) : String :=
  if related_inserts.isEmpty then ""
  else
    "      -- First, process related inserts for each record\n"
      ++ "      FOR i IN 1..v_source_data.COUNT LOOP\n"
      ++ joinAll (related_inserts.map keyMergeBlock)
      ++ "      END LOOP;\n"
      ++ "      \n"
      ++ "      -- Commit the related inserts\n"
      ++ "      COMMIT;\n"
      ++ "      DBMS_OUTPUT.PUT_LINE(" ++ sqs ++ "Related records committed successfully." ++ sqs
      ++ ");\n"
      ++ "      \n"

/-- The complete per-mapping script text (app.py:317-502). -/
def unitCode (source_table target_table package_name : String)
    (source_columns target_columns : List String)
    (transf : List (String × ColumnTransform)) (related_inserts : List RelatedInsert)
    (where_condition : String) : String :=
  "\nSET SERVEROUTPUT ON;\n\n"
    ++ "-- Data migration package for " ++ source_table ++ " to " ++ target_table ++ "\n"
    ++ "CREATE OR REPLACE PACKAGE " ++ package_name ++ " AS\n"
    ++ "  -- Main migration procedure\n"
    ++ "  PROCEDURE migrate_data;\n"
    ++ "END " ++ package_name ++ ";\n/\n\n"
    ++ "CREATE OR REPLACE PACKAGE BODY " ++ package_name ++ " AS\n"
    ++ "  -- Variables declaration\n"
    ++ "  v_error_message VARCHAR2(4000);\n"
    ++ "  v_count NUMBER;\n"
    ++ "  \n"
    ++ "  -- Migration procedure\n"
    ++ "  PROCEDURE migrate_data IS\n"
    ++ "    -- Type definitions for bulk collect\n"
    ++ "    TYPE t_source_rec IS RECORD (\n"
    ++ joinAll (recordFieldLines source_columns)
    ++ "    );\n"
    ++ "    TYPE t_source_tab IS TABLE OF t_source_rec;\n"
    ++ "    v_source_data t_source_tab;\n"
    ++ "  BEGIN\n"
    ++ "    -- Display start message\n"
    ++ "    DBMS_OUTPUT.PUT_LINE(" ++ sqs ++ "Starting migration from "
    ++ source_table ++ " to " ++ target_table ++ ": " ++ sqs
    ++ " || TO_CHAR(SYSDATE, " ++ sqs ++ "DD-MON-YYYY HH24:MI:SS" ++ sqs ++ "));\n\n"
    ++ "    -- Retrieve data from source table\n    SELECT \n"
    ++ joinAll (selectColLines source_columns)
    ++ "    BULK COLLECT INTO v_source_data\n    FROM " ++ source_table
    ++ (if !where_condition.isEmpty then "\n    WHERE " ++ where_condition else "")
    ++ "    ;\n"
    ++ "    \n"
    ++ "    -- Number of records found\n"
    ++ "    v_count := v_source_data.COUNT;\n"
    ++ "    DBMS_OUTPUT.PUT_LINE(" ++ sqs ++ "Found " ++ sqs ++ " || v_count || " ++ sqs
    ++ " records to migrate." ++ sqs ++ ");\n"
    ++ "    \n"
    ++ "    -- If records found, process them\n"
    ++ "    IF v_count > 0 THEN\n"
    ++ relatedInsertsSection related_inserts
    ++ "      -- Now, insert into the main target table\n"
    ++ "      FORALL i IN 1..v_source_data.COUNT\n"
    ++ "        INSERT INTO " ++ target_table ++ " (\n"
    ++ joinAll (insertColLines target_columns)
    ++ "        ) VALUES (\n"
    ++ joinAll (insertValueLines transf target_columns.length 0 source_columns)
    ++ "        );\n"
    ++ "        \n"
    ++ "      DBMS_OUTPUT.PUT_LINE(" ++ sqs ++ "Inserted " ++ sqs ++ " || SQL%ROWCOUNT || "
    ++ sqs ++ " records into main table." ++ sqs ++ ");\n"
    ++ "      COMMIT;\n"
    ++ "      DBMS_OUTPUT.PUT_LINE(" ++ sqs ++ "Main table data committed successfully." ++ sqs
    ++ ");\n"
    ++ "    ELSE\n"
    ++ "      DBMS_OUTPUT.PUT_LINE(" ++ sqs ++ "No records to migrate." ++ sqs ++ ");\n"
    ++ "    END IF;\n"
    ++ "    \n"
    ++ "    DBMS_OUTPUT.PUT_LINE(" ++ sqs ++ "Migration completed: " ++ sqs
    ++ " || TO_CHAR(SYSDATE, " ++ sqs ++ "DD-MON-YYYY HH24:MI:SS" ++ sqs ++ "));\n"
    ++ "  EXCEPTION\n"
    ++ "    WHEN OTHERS THEN\n"
    ++ "      v_error_message := SQLERRM;\n"
    ++ "      DBMS_OUTPUT.PUT_LINE(" ++ sqs ++ "Error during migration: " ++ sqs
    ++ " || v_error_message);\n"
    ++ "      ROLLBACK;\n"
    ++ "      RAISE;\n"
    ++ "  END migrate_data;\n"
    ++ "END " ++ package_name ++ ";\n/\n\n"
    ++ "-- Execute migration\nBEGIN\n  " ++ package_name ++ ".migrate_data;\nEND;\n/\n"

/-- The per-row body of the `for item in mapping_data` loop
(app.py:276-509): field extraction with `item.get` defaults, parsing,
column normalization and script assembly. -/
def buildUnit (item : MappingRow) : GeneratedUnit :=
  let source_table := item.source_table.getD "unknown_source"
  let target_table := item.target_table.getD "unknown_target"
  let transf := process_transformations (item.transformations.getD "")
  let related_inserts := process_related_inserts (item.related_inserts.getD "")
  let cols := normalizedColumns item transf
  let where_condition := item.where_condition.getD ""
  let package_name := "migrt_" ++ pyLower target_table
  { filename := package_name ++ ".sql"
    code := unitCode source_table target_table package_name cols.1 cols.2 transf
      related_inserts where_condition
    source_table := source_table
    target_table := target_table }

/-! ### Orchestration script (app.py:511-550) -/

def mainHeader : String :=
  "\nSET SERVEROUTPUT ON;\n\n"
    ++ "-- Main migration controller\n"
    ++ "BEGIN\n"
    ++ "  DBMS_OUTPUT.PUT_LINE(" ++ sqs ++ "=== DATA MIGRATION START: " ++ sqs
    ++ " || TO_CHAR(SYSDATE, " ++ sqs ++ "DD-MON-YYYY HH24:MI:SS" ++ sqs ++ ") || " ++ sqs
    ++ " ===" ++ sqs ++ ");\n"
    ++ "  DBMS_OUTPUT.PUT_LINE(" ++ sqs ++ sqs ++ ");\n\n"

/-- The per-unit invocation block of the controller (app.py:525-534):
each call is wrapped in its own BEGIN / EXCEPTION WHEN OTHERS / END so a
failing unit is reported and the remaining ones still run. -/
def mainBlock (i : Nat) (u : GeneratedUnit) : String :=
  let package_name := "migrt_" ++ pyLower u.target_table
  ("  -- Migration " ++ toString (i + 1) ++ ": " ++ u.source_table ++ " to "
      ++ u.target_table ++ "\n  BEGIN\n")
    ++ (("    " ++ package_name ++ ".migrate_data;") ++
      ("\n    DBMS_OUTPUT.PUT_LINE(" ++ sqs ++ sqs ++ ");\n"
        ++ "  EXCEPTION\n    WHEN OTHERS THEN\n"
        ++ "      DBMS_OUTPUT.PUT_LINE(" ++ sqs ++ "Error in " ++ package_name ++ ": " ++ sqs
        ++ " || SQLERRM);\n"
        ++ "      DBMS_OUTPUT.PUT_LINE(" ++ sqs ++ sqs ++ ");\n  END;\n"))

/-- The controller loop (app.py:523-536): append each block, and a bare
newline after every block except the last (`if i < len(scripts) - 1`). -/
def mainLoop (i : Nat) : List GeneratedUnit → String
  | [] => ""
  | [u] => mainBlock i u
  | u :: u2 :: rest => mainBlock i u ++ "\n" ++ mainLoop (i + 1) (u2 :: rest)

def mainFooter : String :=
  "\n  DBMS_OUTPUT.PUT_LINE(" ++ sqs ++ "=== DATA MIGRATION END: " ++ sqs
    ++ " || TO_CHAR(SYSDATE, " ++ sqs ++ "DD-MON-YYYY HH24:MI:SS" ++ sqs ++ ") || " ++ sqs
    ++ " ===" ++ sqs ++ ");\nEND;\n/\n"

def buildMainScript (scripts : List GeneratedUnit) : String :=
  mainHeader ++ mainLoop 0 scripts ++ mainFooter

/-- `generate_fallback_code` (app.py:271-550), up to the point where the
script list is complete: one unit per mapping row, in input order, plus
the controller unit tagged ALL/ALL. -/
def generate_fallback_code (rows : List MappingRow) : List GeneratedUnit :=
  let scripts := rows.map buildUnit
  scripts ++ [{ filename := "migrate_all.sql"
                code := buildMainScript scripts
                source_table := "ALL"
                target_table := "ALL" }]

/-! ### Artifact filenames (app.py:553-582) -/

/-- `re.sub(r'[^\w]', '_', name)`: replace every character outside the
alphanumeric/underscore class by `_`. -/
def sanitizeName (s : String) : String :=
  String.mk (s.data.map (fun c => if c.isAlphanum || c = '_' then c else '_'))

/-- The filename chosen in the save loop (app.py:561-567). -/
def unitFilename (timestamp : String) (u : GeneratedUnit) : String :=
  if u.source_table = "ALL" ∧ u.target_table = "ALL" then
    timestamp ++ "_migrate_all.sql"
  else
    timestamp ++ "_" ++ sanitizeName u.source_table ++ "_to_" ++ sanitizeName u.target_table
      ++ ".sql"

/-- The filenames written for one batch, in unit order, for a fixed batch
timestamp (the source takes `datetime.now()` once per batch). -/
def savedFilenames (timestamp : String) (rows : List MappingRow) : List String :=
  (generate_fallback_code rows).map (unitFilename timestamp)

/-! ### Spec-side definitions, used to state the claims -/

/-- Rendering of a first-match CASE expression over a value map, following
the spec's description (one WHEN branch per entry, insertion order, ELSE
passing the source value through). -/
def caseRender (src_col : String) (vm : List (String × String)) : String :=
  "CASE v_source_data(i)." ++ src_col ++ "\n"
    ++ joinAll (vm.map (fun p =>
        "            WHEN " ++ sqs ++ p.1 ++ sqs ++ " THEN " ++ p.2 ++ "\n"))
    ++ "            ELSE v_source_data(i)." ++ src_col ++ "\n          END"

/-- First-match-wins semantics of the emitted CASE expression: compare the
source value against the keys in order; on a match substitute the mapped
value, otherwise fall through to the ELSE branch (original value). -/
def caseSemantics (vm : List (String × String)) (v : String) : String :=
  match vm with
  | [] => v
  | (k, mapped) :: rest => if v = k then mapped else caseSemantics rest v

/-- Modelled from the spec: stripping a SINGLE layer of surrounding quote
characters (at most one quote removed at each end), the reading asserted
by the claim; the source's `strip` removes all of them. -/
def dropOneQuote (l : List Char) : List Char :=
  match l with
  | [] => []
  | c :: r => if isQuote c then r else c :: r

def stripOneLayer (s : String) : String :=
  String.mk ((dropOneQuote (dropOneQuote s.data).reverse).reverse)

/-- Spec-side rendering of the controller body: the blocks for the units
in order, starting at index `i`. -/
def specBlocks (i : Nat) : List GeneratedUnit → List String
  | [] => []
  | u :: rest => mainBlock i u :: specBlocks (i + 1) rest

/-- Join with a bare newline between consecutive blocks. -/
def joinWithNewline : List String → String
  | [] => ""
  | [x] => x
  | x :: y :: ys => x ++ "\n" ++ joinWithNewline (y :: ys)

/-! ### Lemmas about the string primitives -/

theorem data_append (s t : String) : (s ++ t).data = s.data ++ t.data := rfl

theorem stripPre_eq_some {p : List Char} :
    ∀ {l r : List Char}, stripPre p l = some r → l = p ++ r := by
  induction p with
  | nil =>
    intro l r h
    simp only [stripPre, Option.some.injEq] at h
    simp [h]
  | cons c p ih =>
    intro l r h
    cases l with
    | nil => simp [stripPre] at h
    | cons d l2 =>
      simp only [stripPre] at h
      by_cases hcd : c = d
      · rw [if_pos hcd] at h
        subst hcd
        simpa using ih h
      · rw [if_neg hcd] at h
        exact absurd h (by simp)

theorem stripPre_self (p b : List Char) : stripPre p (p ++ b) = some b := by
  induction p with
  | nil => rfl
  | cons c p ih => simp [stripPre, ih]

theorem stripPre_length {p l r : List Char} (h : stripPre p l = some r) :
    r.length ≤ l.length := by
  have := stripPre_eq_some h
  subst this
  simp

theorem hasSubL_of_append (p : List Char) :
    ∀ (a b : List Char), hasSubL p (a ++ (p ++ b)) = true := by
  intro a
  induction a with
  | nil =>
    intro b
    cases hp : p with
    | nil =>
      cases b with
      | nil => simp [hasSubL, stripPre]
      | cons c cs => simp [hasSubL, stripPre]
    | cons c cs =>
      rw [← hp]
      have hs : stripPre p (p ++ b) = some b := stripPre_self p b
      cases hq : p ++ b with
      | nil => rw [hq] at hs; simp [hasSubL, hs]
      | cons d ds => rw [hq] at hs; simp [hasSubL, hs]
  | cons x a2 ih =>
    intro b
    show ((stripPre p (x :: (a2 ++ (p ++ b)))).isSome || hasSubL p (a2 ++ (p ++ b))) = true
    rw [ih b]
    simp

theorem consHead_ne_nil (c : Char) (L : List (List Char)) : consHead c L ≠ [] := by
  cases L <;> simp [consHead]

theorem splitGo_ne_nil (c0 : Char) (sep : List Char) (f : Nat) (l : List Char) :
    splitGo c0 sep f l ≠ [] := by
  match f, l with
  | _, [] => simp [splitGo]
  | 0, c :: cs => simp [splitGo]
  | f + 1, c :: cs =>
    simp only [splitGo]
    by_cases hc : c = c0
    · rw [if_pos hc]
      cases hm : stripPre sep cs with
      | some rem => simp
      | none => exact consHead_ne_nil _ _
    · rw [if_neg hc]
      exact consHead_ne_nil _ _

theorem splitGo_no {c0 : Char} (sep : List Char) :
    ∀ (f : Nat) {l : List Char}, c0 ∉ l → splitGo c0 sep f l = [l] := by
  intro f l
  induction l generalizing f with
  | nil => intro _; cases f <;> simp [splitGo]
  | cons c cs ih =>
    intro h
    cases f with
    | zero => simp [splitGo]
    | succ f =>
      have hc : ¬ c = c0 := fun e => h (by simp [e])
      simp only [splitGo, if_neg hc]
      rw [ih f (fun hm => h (List.mem_cons_of_mem _ hm))]
      simp [consHead]

theorem splitGo_fuel (c0 : Char) (sep : List Char) :
    ∀ (f g : Nat) (l : List Char), l.length ≤ f → l.length ≤ g →
      splitGo c0 sep f l = splitGo c0 sep g l := by
  intro f
  induction f with
  | zero =>
    intro g l hf _
    have hl : l = [] := by cases l with
      | nil => rfl
      | cons c cs => simp at hf
    subst hl
    cases g <;> simp [splitGo]
  | succ f ih =>
    intro g l hf hg
    cases l with
    | nil => cases g <;> simp [splitGo]
    | cons c cs =>
      cases g with
      | zero => simp at hg
      | succ g =>
        have hcf : cs.length ≤ f := by simp at hf; omega
        have hcg : cs.length ≤ g := by simp at hg; omega
        simp only [splitGo]
        by_cases hc : c = c0
        · rw [if_pos hc, if_pos hc]
          cases hm : stripPre sep cs with
          | some rem =>
            have hr := stripPre_length hm
            show [] :: splitGo c0 sep f rem = [] :: splitGo c0 sep g rem
            rw [ih g rem (le_trans hr hcf) (le_trans hr hcg)]
          | none =>
            show consHead c (splitGo c0 sep f cs) = consHead c (splitGo c0 sep g cs)
            rw [ih g cs hcf hcg]
        · rw [if_neg hc, if_neg hc, ih g cs hcf hcg]

theorem splitGo_find (c0 : Char) (sep : List Char) :
    ∀ (f : Nat) (a b : List Char), c0 ∉ a →
      a.length + (1 + (sep.length + b.length)) ≤ f →
      splitGo c0 sep f (a ++ c0 :: (sep ++ b)) = a :: splitGo c0 sep b.length b := by
  intro f a
  induction a generalizing f with
  | nil =>
    intro b _ hf
    cases f with
    | zero => omega
    | succ f =>
      simp only [List.nil_append, splitGo, stripPre_self, if_pos rfl]
      rw [splitGo_fuel c0 sep f b.length b (by simp at hf; omega) (le_refl _)]
      simp
  | cons x a2 ih =>
    intro b hxa hf
    cases f with
    | zero => simp only [List.length_cons] at hf; omega
    | succ f =>
      have hx : ¬ x = c0 := fun e => hxa (by simp [e])
      show splitGo c0 sep (f + 1) (x :: (a2 ++ c0 :: (sep ++ b)))
        = (x :: a2) :: splitGo c0 sep b.length b
      simp only [splitGo, if_neg hx]
      rw [ih f b (fun hm => hxa (List.mem_cons_of_mem _ hm))
        (by simp only [List.length_cons] at hf; omega)]
      simp [consHead]

theorem joinSep_consHead (sep : List Char) (c : Char) :
    ∀ {L : List (List Char)}, L ≠ [] → joinSep sep (consHead c L) = c :: joinSep sep L := by
  intro L h
  match L with
  | [] => exact absurd rfl h
  | [x] => simp [consHead, joinSep]
  | x :: y :: ys => simp [consHead, joinSep]

theorem joinSep_splitGo (c0 : Char) (sep : List Char) :
    ∀ (f : Nat) (l : List Char), l.length ≤ f →
      joinSep (c0 :: sep) (splitGo c0 sep f l) = l := by
  intro f
  induction f with
  | zero =>
    intro l hl
    have : l = [] := by cases l with
      | nil => rfl
      | cons c cs => simp at hl
    subst this
    simp [splitGo, joinSep]
  | succ f ih =>
    intro l hl
    cases l with
    | nil => simp [splitGo, joinSep]
    | cons c cs =>
      have hcs : cs.length ≤ f := by simp at hl; omega
      simp only [splitGo]
      by_cases hc : c = c0
      · rw [if_pos hc]
        cases hm : stripPre sep cs with
        | some rem =>
          have hrem : cs = sep ++ rem := stripPre_eq_some hm
          have hr : rem.length ≤ f := le_trans (stripPre_length hm) hcs
          show joinSep (c0 :: sep) ([] :: splitGo c0 sep f rem) = c :: cs
          obtain ⟨y, ys, hys⟩ : ∃ y ys, splitGo c0 sep f rem = y :: ys := by
            cases hL : splitGo c0 sep f rem with
            | nil => exact absurd hL (splitGo_ne_nil c0 sep f rem)
            | cons y ys => exact ⟨y, ys, rfl⟩
          rw [hys]
          show [] ++ (c0 :: sep) ++ joinSep (c0 :: sep) (y :: ys) = c :: cs
          rw [← hys, ih rem hr, hrem, hc]
          simp
        | none =>
          show joinSep (c0 :: sep) (consHead c (splitGo c0 sep f cs)) = c :: cs
          rw [joinSep_consHead _ _ (splitGo_ne_nil c0 sep f cs), ih cs hcs]
      · rw [if_neg hc, joinSep_consHead _ _ (splitGo_ne_nil c0 sep f cs), ih cs hcs]

theorem splitL_no {c0 : Char} {sep l : List Char} (h : c0 ∉ l) :
    splitL (c0 :: sep) l = [l] :=
  splitGo_no sep l.length h

theorem splitL_find (c0 : Char) (sep a b : List Char) (ha : c0 ∉ a) :
    splitL (c0 :: sep) (a ++ c0 :: (sep ++ b)) = a :: splitGo c0 sep b.length b := by
  unfold splitL
  exact splitGo_find c0 sep _ a b ha
    (by simp only [List.length_append, List.length_cons]; omega)

theorem split1L_find (c0 : Char) (sep a b : List Char) (ha : c0 ∉ a) :
    split1L (c0 :: sep) (a ++ c0 :: (sep ++ b)) = [a, b] := by
  unfold split1L
  rw [splitL_find c0 sep a b ha]
  obtain ⟨y, ys, hys⟩ : ∃ y ys, splitGo c0 sep b.length b = y :: ys := by
    cases hL : splitGo c0 sep b.length b with
    | nil => exact absurd hL (splitGo_ne_nil c0 sep b.length b)
    | cons y ys => exact ⟨y, ys, rfl⟩
  have hj : joinSep (c0 :: sep) (y :: ys) = b := by
    rw [← hys]
    exact joinSep_splitGo c0 sep b.length b (le_refl _)
  rw [hys]
  cases ys with
  | nil =>
    simp only [joinSep] at hj
    simp [joinSep, hj]
  | cons z zs => simp [hj]

theorem dropWhile_length_le (p : Char → Bool) (l : List Char) :
    (l.dropWhile p).length ≤ l.length := by
  induction l with
  | nil => simp
  | cons c cs ih =>
    by_cases h : p c
    · simp only [List.dropWhile, h]
      exact le_trans ih (by simp)
    · simp [List.dropWhile, h]

theorem dropWhile_self_or_lt (p : Char → Bool) (l : List Char) :
    l.dropWhile p = l ∨ (l.dropWhile p).length < l.length := by
  cases l with
  | nil => left; rfl
  | cons c cs =>
    by_cases h : p c
    · right
      simp only [List.dropWhile, h]
      have := dropWhile_length_le p cs
      simp only [List.length_cons]
      omega
    · left
      simp [List.dropWhile, h]

theorem stripL_of_parts {l : List Char} (h1 : l.dropWhile Char.isWhitespace = l)
    (h2 : l.reverse.dropWhile Char.isWhitespace = l.reverse) : stripL l = l := by
  unfold stripL
  rw [h1, h2, List.reverse_reverse]

theorem stripL_parts {l : List Char} (h : stripL l = l) :
    l.dropWhile Char.isWhitespace = l ∧ l.reverse.dropWhile Char.isWhitespace = l.reverse := by
  have hlen1 : (l.dropWhile Char.isWhitespace).length ≤ l.length := dropWhile_length_le _ _
  have hlen2 : ((l.dropWhile Char.isWhitespace).reverse.dropWhile Char.isWhitespace).length
      ≤ (l.dropWhile Char.isWhitespace).length := by
    have := dropWhile_length_le Char.isWhitespace (l.dropWhile Char.isWhitespace).reverse
    simpa using this
  have hL : ((l.dropWhile Char.isWhitespace).reverse.dropWhile Char.isWhitespace).length
      = l.length := by
    have : (stripL l).length = l.length := by rw [h]
    unfold stripL at this
    simpa using this
  have hwl : (l.dropWhile Char.isWhitespace).length = l.length := by omega
  have hweq : l.dropWhile Char.isWhitespace = l := by
    rcases dropWhile_self_or_lt Char.isWhitespace l with h2 | h2
    · exact h2
    · omega
  refine ⟨hweq, ?_⟩
  rcases dropWhile_self_or_lt Char.isWhitespace l.reverse with h2 | h2
  · exact h2
  · rw [hweq] at hL
    simp only [List.length_reverse] at hL h2
    omega

theorem takeWhile_append_over {p : Char → Bool} :
    ∀ (a : List Char) {c : Char} {b : List Char}, (∀ x ∈ a, p x = true) → p c = false →
      (a ++ c :: b).takeWhile p = a := by
  intro a
  induction a with
  | nil => intro c b _ hc; simp [List.takeWhile, hc]
  | cons x a2 ih =>
    intro c b ha hc
    have hx : p x = true := ha x (by simp)
    show List.takeWhile p (x :: (a2 ++ c :: b)) = x :: a2
    simp only [List.takeWhile, hx]
    rw [ih (fun y hy => ha y (by simp [hy])) hc]

theorem append_cancel_left : ∀ {x y z : List Char}, x ++ y = x ++ z → y = z := by
  intro x
  induction x with
  | nil => intro y z h; simpa using h
  | cons c cs ih =>
    intro y z h
    simp only [List.cons_append, List.cons.injEq] at h
    exact ih h.2

theorem take_append_left {α : Type} : ∀ (l1 l2 : List α), (l1 ++ l2).take l1.length = l1 := by
  intro l1
  induction l1 with
  | nil => intro l2; simp
  | cons c cs ih => intro l2; simp [ih]

theorem getLast?_append_singleton {α : Type} : ∀ (l : List α) (a : α), (l ++ [a]).getLast? = some a := by
  intro l a
  induction l with
  | nil => rfl
  | cons c cs ih =>
    cases hcs : cs ++ [a] with
    | nil => simp at hcs
    | cons d ds =>
      simp only [List.cons_append, hcs, List.getLast?_cons_cons]
      rw [← hcs, ih]

theorem str_ext {s t : String} (h : s.data = t.data) : s = t := by
  cases s
  cases t
  exact congrArg String.mk h

theorem str_append_assoc (a b c : String) : a ++ b ++ c = a ++ (b ++ c) := by
  apply str_ext
  simp only [data_append, List.append_assoc]

theorem str_append_empty (a : String) : a ++ "" = a := by
  apply str_ext
  show a.data ++ [] = a.data
  simp

theorem str_data_eq_nil {s : String} (h : s.data = []) : s = "" := str_ext h

/-! ### Whitespace edge lemmas for `stripL` -/

theorem dropWhile_ws_cons {c : Char} (l : List Char) (hc : c.isWhitespace = false) :
    (c :: l).dropWhile Char.isWhitespace = c :: l := by
  simp [List.dropWhile, hc]

/-- A non-empty list that survives `stripL` unchanged has a non-whitespace
last character (exposed through its reverse). -/
theorem reverse_head_not_ws {v : List Char} (hv : stripL v = v) (hne : v ≠ []) :
    ∃ c t, v.reverse = c :: t ∧ c.isWhitespace = false := by
  obtain ⟨-, h2⟩ := stripL_parts hv
  cases hrev : v.reverse with
  | nil =>
    exfalso
    apply hne
    have := congrArg List.reverse hrev
    simpa using this
  | cons c t =>
    refine ⟨c, t, rfl, ?_⟩
    by_cases hc : c.isWhitespace = true
    · rw [hrev] at h2
      simp only [List.dropWhile, hc] at h2
      have hlen := congrArg List.length h2
      have := dropWhile_length_le Char.isWhitespace t
      simp only [List.length_cons] at hlen
      omega
    · simpa using hc

theorem stripL_eq_self_of_ends {l : List Char} {c d : Char} {m e : List Char}
    (hform : l = c :: m) (hrev : l.reverse = d :: e)
    (hc : c.isWhitespace = false) (hd : d.isWhitespace = false) : stripL l = l := by
  apply stripL_of_parts
  · rw [hform]
    exact dropWhile_ws_cons m hc
  · rw [hrev]
    exact dropWhile_ws_cons e hd

theorem stripL_cons_colon {v : List Char} (hv : stripL v = v) (hv0 : v ≠ []) :
    stripL (':' :: v) = ':' :: v := by
  obtain ⟨c, t, hrev, hcw⟩ := reverse_head_not_ws hv hv0
  have hr2 : (':' :: v).reverse = c :: (t ++ [':']) := by
    rw [List.reverse_cons, hrev]
    simp
  exact stripL_eq_self_of_ends rfl hr2 (by decide) hcw

/-! ### Characterization of well-formed `KEY:` directives -/

/-- Parsing of the directive `KEY:<tbl>(<k>):<v>` for any already-stripped
non-empty `k`, `v` and any `tbl` free of `(` (the first-`(` split) and any
`k` free of `)` (the regex group / first-`)` split): the directive is
retained with `tbl` stripped, and `tbl` itself is never tested. -/
theorem parseKeyCore_wellformed (tbl k v : List Char)
    (hk : stripL k = k) (hv : stripL v = v) (hk0 : k ≠ []) (hv0 : v ≠ [])
    (h1 : '(' ∉ tbl) (h2 : ')' ∉ k) :
    parseKeyInstructionCore (keyColonL ++ (tbl ++ '(' :: (k ++ ')' :: ':' :: v)))
      = some { target_table := String.mk (stripL tbl), key_column := String.mk k,
               value_column := String.mk v } := by
  have hdrop : (keyColonL ++ (tbl ++ '(' :: (k ++ ')' :: ':' :: v))).drop 4
      = tbl ++ '(' :: (k ++ ')' :: ':' :: v) := by
    simp [keyColonL]
  have hsplit1 : split1L ['('] (tbl ++ '(' :: (k ++ ')' :: ':' :: v))
      = [tbl, k ++ ')' :: ':' :: v] := by
    have h := split1L_find '(' [] tbl (k ++ ')' :: ':' :: v) h1
    simpa using h
  have htake : List.takeWhile (fun x => x != ')') (k ++ ')' :: ':' :: v) = k := by
    apply takeWhile_append_over
    · intro x hx
      rw [bne_iff_ne]
      exact fun e => h2 (e ▸ hx)
    · simp
  have hke : k.isEmpty = false := by
    cases k with
    | nil => exact absurd rfl hk0
    | cons a b => rfl
  have hlt : k.length < (k ++ ')' :: ':' :: v).length := by
    simp only [List.length_append, List.length_cons]
    omega
  have hfind : findParenGroup ('(' :: (k ++ ')' :: ':' :: v)) = some k := by
    simp only [findParenGroup, htake, hke, Bool.false_eq_true, if_false]
    simp [hlt]
  have hmem2 : ')' ∉ '(' :: k := by
    intro hm
    rcases List.mem_cons.mp hm with h | h
    · exact absurd h (by decide)
    · exact h2 h
  have hsplit2 : split1L [')'] ('(' :: (k ++ ')' :: ':' :: v)) = ['(' :: k, ':' :: v] := by
    have h := split1L_find ')' [] ('(' :: k) (':' :: v) hmem2
    simpa using h
  have hvc : stripL (':' :: v) = ':' :: v := stripL_cons_colon hv hv0
  have hstart : startsWithL [':'] (':' :: v) = true := by
    simp [startsWithL, stripPre]
  simp only [parseKeyInstructionCore, hdrop, hsplit1, hfind, hsplit2, hk, hvc, hstart,
    if_true, List.drop_succ_cons, List.drop_zero, hv, ne_eq]
  rw [if_pos ⟨hk0, hv0⟩]

/-- The same fact lifted to `process_related_inserts` on a single-directive
string, with commas excluded from all parts (the documented grammar
limitation: fields may not contain the top-level separator). -/
theorem parseKey_wellformed (tbl k v : String)
    (hk : pyStrip k = k) (hv : pyStrip v = v) (hk0 : k ≠ "") (hv0 : v ≠ "")
    (h1 : '(' ∉ tbl.data) (h2 : ')' ∉ k.data)
    (hc1 : ',' ∉ tbl.data) (hc2 : ',' ∉ k.data) (hc3 : ',' ∉ v.data) :
    process_related_inserts ("KEY:" ++ tbl ++ "(" ++ k ++ "):" ++ v)
      = [{ target_table := pyStrip tbl, key_column := k, value_column := v }] := by
  have hkd : stripL k.data = k.data := congrArg String.data hk
  have hvd : stripL v.data = v.data := congrArg String.data hv
  have hk0d : k.data ≠ [] := fun h => hk0 (str_data_eq_nil h)
  have hv0d : v.data ≠ [] := fun h => hv0 (str_data_eq_nil h)
  have hdata : ("KEY:" ++ tbl ++ "(" ++ k ++ "):" ++ v).data
      = keyColonL ++ (tbl.data ++ '(' :: (k.data ++ ')' :: ':' :: v.data)) := by
    simp only [data_append, List.append_assoc]
    rfl
  unfold process_related_inserts process_related_insertsL
  rw [hdata]
  have hcomma : ',' ∉ keyColonL ++ (tbl.data ++ '(' :: (k.data ++ ')' :: ':' :: v.data)) := by
    intro hm
    rw [List.mem_append] at hm
    rcases hm with h | h
    · exact absurd h (by decide)
    · rw [List.mem_append] at h
      rcases h with h | h
      · exact hc1 h
      · rw [List.mem_cons] at h
        rcases h with h | h
        · exact absurd h (by decide)
        · rw [List.mem_append] at h
          rcases h with h | h
          · exact hc2 h
          · rw [List.mem_cons] at h
            rcases h with h | h
            · exact absurd h (by decide)
            · rw [List.mem_cons] at h
              rcases h with h | h
              · exact absurd h (by decide)
              · exact hc3 h
  rw [splitL_no hcomma]
  obtain ⟨c, t, hrev, hcw⟩ := reverse_head_not_ws hvd hv0d
  have hstripinst : stripL (keyColonL ++ (tbl.data ++ '(' :: (k.data ++ ')' :: ':' :: v.data)))
      = keyColonL ++ (tbl.data ++ '(' :: (k.data ++ ')' :: ':' :: v.data)) := by
    apply stripL_eq_self_of_ends (c := 'K') (d := c)
      (m := ['E', 'Y', ':'] ++ (tbl.data ++ '(' :: (k.data ++ ')' :: ':' :: v.data)))
    · simp [keyColonL]
    · show _ = c :: (t ++ (')' :: ':' :: []).reverse ++ (k.data.reverse
        ++ ('(' :: []).reverse ++ tbl.data.reverse ++ keyColonL.reverse))
      simp only [List.reverse_append, List.reverse_cons, List.append_assoc, hrev]
      simp
    · decide
    · exact hcw
  have hne2 : (keyColonL ++ (tbl.data ++ '(' :: (k.data ++ ')' :: ':' :: v.data))).isEmpty
      = false := by
    simp [keyColonL]
  have hsw : startsWithL keyColonL
      (keyColonL ++ (tbl.data ++ '(' :: (k.data ++ ')' :: ':' :: v.data))) = true := by
    simp [startsWithL, stripPre_self]
  simp only [List.filterMap_cons, List.filterMap_nil, hstripinst, hne2, Bool.false_eq_true,
    if_false, hsw, if_true,
    parseKeyCore_wellformed tbl.data k.data v.data hkd hvd hk0d hv0d h1 h2]
  rfl

/-! ### Lemmas for the generated-script claims -/

theorem withCommas_length (mk : String → String) :
    ∀ (l : List String), (withCommas mk l).length = l.length := by
  intro l
  induction l with
  | nil => rfl
  | cons c rest ih =>
    cases rest with
    | nil => rfl
    | cons c2 rest2 => simp only [withCommas, List.length_cons] at ih ⊢; omega

theorem insertValueLines_stop (transf : List (String × ColumnTransform)) (n : Nat) :
    ∀ (i : Nat) (src : List String), n ≤ i → insertValueLines transf n i src = [] := by
  intro i src
  induction src generalizing i with
  | nil => intro _; rfl
  | cons col rest ih =>
    intro h
    simp only [insertValueLines, if_neg (by omega : ¬ i < n)]
    exact ih (i + 1) (by omega)

theorem insertValueLines_length (transf : List (String × ColumnTransform)) (n : Nat) :
    ∀ (i : Nat) (src : List String),
      (insertValueLines transf n i src).length = min src.length (n - i) := by
  intro i src
  induction src generalizing i with
  | nil =>
    simp only [insertValueLines, List.length_nil]
    rw [Nat.min_def]
    split <;> omega
  | cons col rest ih =>
    by_cases h : i < n
    · simp only [insertValueLines, if_pos h, List.length_cons, ih (i + 1)]
      rw [Nat.min_def, Nat.min_def]
      split
      · split <;> omega
      · split <;> omega
    · rw [insertValueLines_stop transf n i (col :: rest) (by omega)]
      simp only [List.length_nil, List.length_cons]
      rw [Nat.min_def]
      split <;> omega

theorem insertValueLines_drop_extra (transf : List (String × ColumnTransform)) (n : Nat) :
    ∀ (i : Nat) (src : List String),
      insertValueLines transf n i src = insertValueLines transf n i (src.take (n - i)) := by
  intro i src
  induction src generalizing i with
  | nil => rw [List.take_nil]
  | cons col rest ih =>
    by_cases h : i < n
    · have htake : (col :: rest).take (n - i) = col :: rest.take (n - (i + 1)) := by
        have he : n - i = (n - (i + 1)) + 1 := by omega
        rw [he, List.take_succ_cons]
      rw [htake]
      simp only [insertValueLines, if_pos h]
      rw [ih (i + 1)]
    · have he : n - i = 0 := by omega
      rw [he, List.take_zero, insertValueLines_stop transf n i (col :: rest) (by omega)]
      rfl

/-- The loop `for src_val, dest_val in value_maps.items(): code += ...`
appends exactly the WHEN branches of the spec-side CASE rendering. -/
theorem caseFold : ∀ (vm : List (String × String)) (acc : String),
    vm.foldl (fun acc p =>
        acc ++ "            WHEN " ++ sqs ++ p.1 ++ sqs ++ " THEN " ++ p.2 ++ "\n") acc
      = acc ++ joinAll (vm.map (fun p =>
          "            WHEN " ++ sqs ++ p.1 ++ sqs ++ " THEN " ++ p.2 ++ "\n")) := by
  intro vm
  induction vm with
  | nil => intro acc; simp [joinAll, str_append_empty]
  | cons p rest ih =>
    intro acc
    simp only [List.foldl_cons, List.map_cons, joinAll, ih]
    simp [str_append_assoc]

theorem valueExpr_case {transf : List (String × ColumnTransform)} {c d : String}
    {vm : List (String × String)}
    (h : dictGet c transf = some { dest_field := d, value_maps := some vm }) :
    valueExpr transf c = caseRender c vm := by
  unfold valueExpr caseRender
  rw [h]
  show (vm.foldl _ ("CASE v_source_data(i)." ++ c ++ "\n"))
      ++ "            ELSE v_source_data(i)." ++ c ++ "\n          END" = _
  rw [caseFold]

theorem caseSemantics_default : ∀ (vm : List (String × String)) (v : String),
    (∀ p ∈ vm, v ≠ p.1) → caseSemantics vm v = v := by
  intro vm v
  induction vm with
  | nil => intro _; rfl
  | cons p rest ih =>
    intro h
    have hp : v ≠ p.1 := h p (by simp)
    simp only [caseSemantics, if_neg hp]
    exact ih (fun q hq => h q (by simp [hq]))

theorem mainLoop_eq_blocks : ∀ (L : List GeneratedUnit) (i : Nat),
    mainLoop i L = joinWithNewline (specBlocks i L) := by
  intro L
  induction L with
  | nil => intro i; rfl
  | cons u rest ih =>
    intro i
    cases rest with
    | nil => rfl
    | cons u2 rest2 =>
      show mainBlock i u ++ "\n" ++ mainLoop (i + 1) (u2 :: rest2) = _
      rw [ih (i + 1)]
      rfl

theorem pyContains_of_parts {s pat : String} (x y : List Char)
    (h : s.data = x ++ (pat.data ++ y)) : pyContains s pat = true := by
  unfold pyContains
  rw [h]
  exact hasSubL_of_append _ _ _

theorem mainBlock_contains_call (i : Nat) (u : GeneratedUnit) :
    pyContains (mainBlock i u)
      ("    " ++ ("migrt_" ++ pyLower u.target_table) ++ ".migrate_data;") = true := by
  apply pyContains_of_parts
    (("  -- Migration " ++ toString (i + 1) ++ ": " ++ u.source_table ++ " to "
        ++ u.target_table ++ "\n  BEGIN\n").data)
    (("\n    DBMS_OUTPUT.PUT_LINE(" ++ sqs ++ sqs ++ ");\n"
        ++ "  EXCEPTION\n    WHEN OTHERS THEN\n"
        ++ "      DBMS_OUTPUT.PUT_LINE(" ++ sqs ++ "Error in " ++ ("migrt_" ++ pyLower u.target_table)
        ++ ": " ++ sqs ++ " || SQLERRM);\n"
        ++ "      DBMS_OUTPUT.PUT_LINE(" ++ sqs ++ sqs ++ ");\n  END;\n").data)
  simp only [mainBlock, data_append, List.append_assoc]

theorem mainBlock_contains_wrapper (i : Nat) (u : GeneratedUnit) :
    pyContains (mainBlock i u) "  EXCEPTION\n    WHEN OTHERS THEN\n" = true := by
  apply pyContains_of_parts
    (("  -- Migration " ++ toString (i + 1) ++ ": " ++ u.source_table ++ " to "
        ++ u.target_table ++ "\n  BEGIN\n").data
      ++ (("    " ++ ("migrt_" ++ pyLower u.target_table) ++ ".migrate_data;").data
      ++ ("\n    DBMS_OUTPUT.PUT_LINE(" ++ sqs ++ sqs ++ ");\n").data))
    (("      DBMS_OUTPUT.PUT_LINE(" ++ sqs ++ "Error in " ++ ("migrt_" ++ pyLower u.target_table)
        ++ ": " ++ sqs ++ " || SQLERRM);\n"
        ++ "      DBMS_OUTPUT.PUT_LINE(" ++ sqs ++ sqs ++ ");\n  END;\n").data)
  simp only [mainBlock, data_append, List.append_assoc]

theorem unitFilename_ne_all (ts : String) (u : GeneratedUnit)
    (h : ¬(u.source_table = "ALL" ∧ u.target_table = "ALL")) :
    unitFilename ts u ≠ ts ++ "_migrate_all.sql" := by
  unfold unitFilename
  rw [if_neg h]
  intro heq
  have hd := congrArg String.data heq
  simp only [data_append, List.append_assoc] at hd
  have hd2 := append_cancel_left hd
  have htail : (sanitizeName u.source_table).data ++ (['_', 't', 'o', '_']
      ++ ((sanitizeName u.target_table).data ++ ['.', 's', 'q', 'l']))
      = ['m', 'i', 'g', 'r', 'a', 't', 'e', '_', 'a', 'l', 'l', '.', 's', 'q', 'l'] := by
    simpa using hd2
  have hfalse : hasSubL ['_', 't', 'o', '_']
      ['m', 'i', 'g', 'r', 'a', 't', 'e', '_', 'a', 'l', 'l', '.', 's', 'q', 'l'] = true := by
    rw [← htail]
    exact hasSubL_of_append _ _ _
  exact absurd hfalse (by decide)

theorem savedFilenames_eq (ts : String) (rows : List MappingRow) :
    savedFilenames ts rows
      = rows.map (fun r => unitFilename ts (buildUnit r)) ++ [ts ++ "_migrate_all.sql"] := by
  unfold savedFilenames generate_fallback_code
  simp only [List.map_append, List.map_map, List.map_cons, List.map_nil]
  have hall : unitFilename ts
      { filename := "migrate_all.sql", code := buildMainScript (rows.map buildUnit),
        source_table := "ALL", target_table := "ALL" } = ts ++ "_migrate_all.sql" := by
    simp [unitFilename]
  rw [hall]
  rfl

/-! ### The claims -/

/-- C1 (counterexample): the claim that the inserted-column list and the
values list each contain `min(len(source_columns), len(target_columns))`
entries fails on the normalized mapping with source columns `S1` and
target columns `T1, T2`: the inserted-column list has 2 entries (the loop
runs over ALL target columns, app.py:444-448) while `min 1 2 = 1`; the
VALUES list does contain `min` entries. -/
theorem c1_counterexample :
    (let row : MappingRow := ⟨some "S", some "T", some "S1", some "T1,T2", none, none, none⟩
     let transf := process_transformations ""
     let cols := normalizedColumns row transf
     ¬ (insertColLines cols.2).length = min cols.1.length cols.2.length
       ∧ (insertValueLines transf cols.2.length 0 cols.1).length
          = min cols.1.length cols.2.length) := by
  decide

/-- C1 (amended): for every normalized column pair, the VALUES list of the
generated insert contains exactly `min(len(source), len(target))` entries
and depends only on the first `len(target)` source columns (extra source
columns silently dropped), while the inserted-column list always contains
`len(target)` entries; the two sides both equal `min` exactly when there
are at least as many source columns as target columns (as in the
4-source/2-target scenario of the spec). -/
theorem c1_claim : ∀ (src tgt : List String) (transf : List (String × ColumnTransform)),
    (insertColLines tgt).length = tgt.length
    ∧ (insertValueLines transf tgt.length 0 src).length = min src.length tgt.length
    ∧ insertValueLines transf tgt.length 0 src
        = insertValueLines transf tgt.length 0 (src.take tgt.length)
    ∧ (tgt.length ≤ src.length →
        (insertColLines tgt).length = min src.length tgt.length) := by
  intro src tgt transf
  have h1 : (insertColLines tgt).length = tgt.length := withCommas_length _ tgt
  have h2 := insertValueLines_length transf tgt.length 0 src
  have h3 := insertValueLines_drop_extra transf tgt.length 0 src
  rw [Nat.sub_zero] at h2 h3
  refine ⟨h1, h2, h3, ?_⟩
  intro hle
  rw [h1, Nat.min_def]
  split <;> omega

/-- C1 (witness): the 4-source/2-target instance of the amended claim. -/
theorem c1_witness :
    (insertColLines ["T1", "T2"]).length
      = min (["S1", "S2", "S3", "S4"] : List String).length (["T1", "T2"] : List String).length :=
  (c1_claim ["S1", "S2", "S3", "S4"] ["T1", "T2"] []).2.2.2 (by decide)

/-- C2 (counterexample): a row whose `source_table`/`target_table` fields
are present but empty keeps the empty names — no placeholder is
substituted (`item.get` only defaults on an ABSENT key, app.py:277-278),
refuting the claim that emptiness after trimming triggers the placeholder. -/
theorem c2_counterexample :
    (buildUnit { source_table := some "", target_table := some "" }).source_table = ""
    ∧ (buildUnit { source_table := some "", target_table := some "" }).target_table = ""
    ∧ ("" : String) ≠ "unknown_source" ∧ ("" : String) ≠ "unknown_target" :=
  ⟨rfl, rfl, by decide, by decide⟩

/-- C2 (amended): the placeholder table names are substituted exactly when
the field is absent from the row map; a present (possibly empty) value is
used verbatim, and generation is total either way (the embedding is a
total function — no error path exists). -/
theorem c2_claim : ∀ (item : MappingRow), item.source_table = none → item.target_table = none →
    (buildUnit item).source_table = "unknown_source"
    ∧ (buildUnit item).target_table = "unknown_target" := by
  intro item h1 h2
  refine ⟨?_, ?_⟩ <;> simp [buildUnit, h1, h2]

/-- C2 (witness): a row without table fields gets both placeholders. -/
theorem c2_witness :
    (buildUnit { transformations := some "A->B" }).source_table = "unknown_source"
    ∧ (buildUnit { transformations := some "A->B" }).target_table = "unknown_target" :=
  c2_claim { transformations := some "A->B" } rfl rfl

/-- C3 (counterexample): two mapping rows with the same source and target
tables receive the same filename, so the filenames of a batch are not
pairwise distinct. -/
theorem c3_counterexample :
    ¬ (savedFilenames "TS" [{ source_table := some "A", target_table := some "B" },
        { source_table := some "A", target_table := some "B" }]).Nodup := by
  decide

/-- C3 (amended): the filenames follow the documented scheme — per-mapping
units are named `<timestamp>_<sanitized-source>_to_<sanitized-target>.sql`
in input order followed by the orchestration unit's
`<timestamp>_migrate_all.sql` — and the orchestration filename never
collides with a unit whose table pair is not literally ALL/ALL; but two
mapping units with equal sanitized table pairs share a filename, so
pairwise distinctness does not hold in general. -/
theorem c3_claim : ∀ (ts : String) (rows : List MappingRow),
    savedFilenames ts rows
      = rows.map (fun r => unitFilename ts (buildUnit r)) ++ [ts ++ "_migrate_all.sql"]
    ∧ (∀ u : GeneratedUnit, ¬(u.source_table = "ALL" ∧ u.target_table = "ALL") →
        unitFilename ts u ≠ ts ++ "_migrate_all.sql") :=
  fun ts rows => ⟨savedFilenames_eq ts rows, fun u h => unitFilename_ne_all ts u h⟩

/-- C3 (witness): a concrete non-ALL unit's filename differs from the
orchestration filename. -/
theorem c3_witness :
    unitFilename "TS" { filename := "f", code := "c", source_table := "A", target_table := "B" }
      ≠ "TS" ++ "_migrate_all.sql" :=
  (c3_claim "TS" []).2 _ (by decide)

/-- C4 (counterexample): the claim says each side of a `MAP` pair is
stripped of a SINGLE layer of surrounding quotes; the code strips ALL of
them (`.strip("'\x22")`, app.py:144-145).  On the pair whose left side is
`x` wrapped in two quote layers, the code yields the key `x`, whereas a
single-layer strip of the trimmed side yields `x` still wrapped in one
quote layer. -/
theorem c4_counterexample :
    parseTransformClause ("A->B(MAP: " ++ sqs ++ sqs ++ "x" ++ sqs ++ sqs ++ "->"
        ++ sqs ++ "1" ++ sqs ++ ")").data
      = some ("A", { dest_field := "B", value_maps := some [("x", "1")] })
    ∧ stripOneLayer (pyStrip (" " ++ sqs ++ sqs ++ "x" ++ sqs ++ sqs ++ " ")) ≠ "x" :=
  ⟨by decide, by decide⟩

/-- C4 (amended): a clause `SRC->DEST` without a MAP part parses to the
trimmed destination with no value map (for any `SRC` free of `-` and any
`DEST` whose trimmed form does not contain `(MAP:`); a clause with a MAP
part is split once on `(MAP:`, a single trailing `)` is stripped, and each
comma-separated pair is parsed with each side trimmed and stripped of ALL
surrounding quote characters (single or double, stacked quotes all
removed) — demonstrated on a clause mixing quote styles and spacing. -/
theorem c4_claim :
    (∀ s d : String, '-' ∉ s.data → hasSubL mapOpenL (stripL d.data) = false →
        parseTransformClause (s ++ "->" ++ d).data
          = some (pyStrip s, { dest_field := pyStrip d, value_maps := none }))
    ∧ parseTransformClause ("A->B (MAP: " ++ sqs ++ "x" ++ sqs ++ "->" ++ sqs ++ "1" ++ sqs
        ++ ", \"y\" -> 2 )").data
      = some ("A", { dest_field := "B", value_maps := some [("x", "1"), ("y", "2")] }) := by
  constructor
  · intro s d hs hd
    have hdata : (s ++ "->" ++ d).data = s.data ++ '-' :: '>' :: d.data := by
      simp only [data_append, List.append_assoc]
      rfl
    have hsub : hasSubL arrowL (s.data ++ '-' :: '>' :: d.data) = true :=
      hasSubL_of_append arrowL s.data d.data
    have hsplit : split1L arrowL (s.data ++ '-' :: '>' :: d.data) = [s.data, d.data] :=
      split1L_find '-' ['>'] s.data d.data hs
    rw [hdata]
    simp only [parseTransformClause, hsub, if_true, hsplit, hd, Bool.false_eq_true, if_false]
    rfl
  · decide

/-- C4 (witness): a plain clause with a space-padded destination. -/
theorem c4_witness :
    parseTransformClause ("SRC" ++ "->" ++ " DEST ").data
      = some ("SRC", { dest_field := "DEST", value_maps := none }) :=
  ((c4_claim).1 "SRC" " DEST " (by decide) (by decide)).trans (by decide)

/-- C5: a source column whose `ColumnTransform` carries a value map is
emitted as the first-match CASE expression over the map entries in
insertion order with an ELSE branch passing the original value through
(so the unmapped value `z` yields `z` under the CASE semantics), and a
column without a value map (or without any transform) passes through
unchanged. -/
theorem c5_claim :
    (∀ (transf : List (String × ColumnTransform)) (c d : String) (vm : List (String × String)),
        dictGet c transf = some { dest_field := d, value_maps := some vm } →
        valueExpr transf c = caseRender c vm)
    ∧ (∀ (vm : List (String × String)) (v : String),
        (∀ p ∈ vm, v ≠ p.1) → caseSemantics vm v = v)
    ∧ caseSemantics [("x", "1"), ("y", "2")] "z" = "z"
    ∧ (∀ (transf : List (String × ColumnTransform)) (c : String),
        dictGet c transf = none → valueExpr transf c = "v_source_data(i)." ++ c)
    ∧ (∀ (transf : List (String × ColumnTransform)) (c d : String),
        dictGet c transf = some { dest_field := d, value_maps := none } →
        valueExpr transf c = "v_source_data(i)." ++ c) := by
  refine ⟨fun transf c d vm h => valueExpr_case h, caseSemantics_default, rfl, ?_, ?_⟩
  · intro transf c h
    unfold valueExpr
    rw [h]
  · intro transf c d h
    unfold valueExpr
    rw [h]

/-- C5 (witness): the STATUS column of the sample mapping renders as the
CASE expression over its two-entry value map. -/
theorem c5_witness :
    valueExpr [("STATUS", ⟨"STATUS_CODE", some [("A", "1"), ("I", "0")]⟩)] "STATUS"
      = caseRender "STATUS" [("A", "1"), ("I", "0")] :=
  (c5_claim).1 [("STATUS", ⟨"STATUS_CODE", some [("A", "1"), ("I", "0")]⟩)]
    "STATUS" "STATUS_CODE" [("A", "1"), ("I", "0")] (by decide)

/-- C6 (counterexample): the claim's general reading — `target_table` is
everything between `KEY:` and the first `(` — fails on a directive with
inner spacing: the code trims the extracted text, producing `tbl` rather
than the untrimmed text between the delimiters. -/
theorem c6_counterexample :
    process_related_inserts "KEY: tbl (ID):NAME"
      = [{ target_table := "tbl", key_column := "ID", value_column := "NAME" }]
    ∧ ("tbl" : String) ≠ " tbl " :=
  ⟨by decide, by decide⟩

/-- C6 (amended): `KEY:migrt_key(ID):NAME` parses to exactly one
`RelatedInsert` with the stated fields; in general, for a well-formed
directive `KEY:<tbl>(<k>):<v>` (fields comma-free, `tbl` free of `(`, `k`
non-empty, `)`-free and already trimmed, `v` non-empty and already
trimmed), `target_table` is everything between `KEY:` and the first `(`
TRIMMED of surrounding whitespace, `key_column` is the first parenthesized
group trimmed, and `value_column` is the remainder after that `)` with one
optional leading `:` stripped, trimmed. -/
theorem c6_claim :
    process_related_inserts "KEY:migrt_key(ID):NAME"
      = [{ target_table := "migrt_key", key_column := "ID", value_column := "NAME" }]
    ∧ (∀ tbl k v : String, pyStrip k = k → pyStrip v = v → k ≠ "" → v ≠ "" →
        '(' ∉ tbl.data → ')' ∉ k.data → ',' ∉ tbl.data → ',' ∉ k.data → ',' ∉ v.data →
        process_related_inserts ("KEY:" ++ tbl ++ "(" ++ k ++ "):" ++ v)
          = [{ target_table := pyStrip tbl, key_column := k, value_column := v }]) :=
  ⟨by decide, fun tbl k v hk hv hk0 hv0 h1 h2 hc1 hc2 hc3 =>
    parseKey_wellformed tbl k v hk hv hk0 hv0 h1 h2 hc1 hc2 hc3⟩

/-- C6 (witness): a directive with a space-padded table name parses with
the table trimmed. -/
theorem c6_witness :
    process_related_inserts ("KEY:" ++ " tb " ++ "(" ++ "ID" ++ "):" ++ "NAME")
      = [{ target_table := pyStrip " tb ", key_column := "ID", value_column := "NAME" }] :=
  (c6_claim).2 " tb " "ID" "NAME" (by decide) (by decide) (by decide) (by decide)
    (by decide) (by decide) (by decide) (by decide) (by decide)

/-- C7: both parsers recover locally and never raise (every embedded
function is total): a transform clause without `->` is skipped; the
truncated directive `KEY:tbl(ID` parses to the empty list; sibling
clauses/directives of the same string still parse; a directive whose key
column trims to empty is likewise dropped. -/
theorem c7_claim :
    (∀ t : List Char, hasSubL arrowL t = false → parseTransformClause t = none)
    ∧ process_related_inserts "KEY:tbl(ID" = []
    ∧ process_transformations "A,B->C" = [("B", { dest_field := "C", value_maps := none })]
    ∧ process_related_inserts "KEY:tbl(ID,KEY:migrt_key(ID):NAME"
        = [{ target_table := "migrt_key", key_column := "ID", value_column := "NAME" }]
    ∧ process_related_inserts "KEY:tbl( ):NAME" = [] := by
  refine ⟨?_, by decide, by decide, by decide, by decide⟩
  intro t h
  simp only [parseTransformClause, h, Bool.false_eq_true, if_false]

/-- C7 (witness): a clause without an arrow is skipped. -/
theorem c7_witness :
    hasSubL arrowL ("NO ARROW HERE").data = false
    ∧ parseTransformClause ("NO ARROW HERE").data = none :=
  ⟨by decide, (c7_claim).1 _ (by decide)⟩

/-- C8: a batch of N rows yields exactly N+1 units — the N per-mapping
units in input order followed by the single ALL/ALL orchestration unit —
whose code is the header, the per-unit invocation blocks joined in
generation order, and the footer; every block contains the package
invocation and the `EXCEPTION WHEN OTHERS` wrapper that reports a failure
and lets the remaining invocations run. -/
theorem c8_claim : ∀ (rows : List MappingRow),
    (generate_fallback_code rows).length = rows.length + 1
    ∧ (generate_fallback_code rows).take rows.length = rows.map buildUnit
    ∧ (generate_fallback_code rows).getLast? = some
        { filename := "migrate_all.sql", code := buildMainScript (rows.map buildUnit),
          source_table := "ALL", target_table := "ALL" }
    ∧ (∀ scripts : List GeneratedUnit,
        buildMainScript scripts
          = mainHeader ++ joinWithNewline (specBlocks 0 scripts) ++ mainFooter)
    ∧ (∀ (i : Nat) (u : GeneratedUnit),
        pyContains (mainBlock i u)
          ("    " ++ ("migrt_" ++ pyLower u.target_table) ++ ".migrate_data;") = true)
    ∧ (∀ (i : Nat) (u : GeneratedUnit),
        pyContains (mainBlock i u) "  EXCEPTION\n    WHEN OTHERS THEN\n" = true) := by
  intro rows
  refine ⟨?_, ?_, ?_, ?_, mainBlock_contains_call, mainBlock_contains_wrapper⟩
  · unfold generate_fallback_code
    simp
  · unfold generate_fallback_code
    show (rows.map buildUnit ++ [_]).take rows.length = rows.map buildUnit
    rw [show rows.length = (rows.map buildUnit).length by simp]
    exact take_append_left _ _
  · unfold generate_fallback_code
    exact getLast?_append_singleton _ _
  · intro scripts
    unfold buildMainScript
    rw [mainLoop_eq_blocks]

/-- C9: the type-inference heuristic maps the four spec examples as
stated, is a pure case-insensitive function of the column name (it depends
only on the uppercased name), and its rules fire in fixed priority order:
any name containing `ID` gets NUMBER regardless of later rules, and a name
matching no earlier rule but containing `DATE` gets DATE. -/
theorem c9_claim :
    inferColType "CUSTOMER_ID" = "NUMBER"
    ∧ inferColType "ORDER_DATE" = "DATE"
    ∧ inferColType "TOTAL_AMOUNT" = "NUMBER"
    ∧ inferColType "STATUS" = "VARCHAR2(4000)"
    ∧ (∀ a b : String, pyUpper a = pyUpper b → inferColType a = inferColType b)
    ∧ (∀ c : String, pyContains (pyUpper c) "ID" = true → inferColType c = "NUMBER")
    ∧ (∀ c : String, pyContains (pyUpper c) "ID" = false →
        pyEndsWith (pyUpper c) "_ID" = false →
        pyContains (pyUpper c) "DATE" = true → inferColType c = "DATE") := by
  refine ⟨by decide, by decide, by decide, by decide, ?_, ?_, ?_⟩
  · intro a b h
    simp only [inferColType]
    rw [h]
  · intro c h
    simp only [inferColType, h, Bool.true_or, if_true]
  · intro c h1 h2 h3
    simp only [inferColType, h1, h2, h3, Bool.or_self, Bool.false_eq_true, if_false,
      Bool.true_or, if_true]

/-- C9 (witness): case-insensitivity at a concrete lower/upper pair. -/
theorem c9_witness :
    pyUpper "customer_id" = pyUpper "CUSTOMER_ID"
    ∧ inferColType "customer_id" = inferColType "CUSTOMER_ID" :=
  ⟨by decide, (c9_claim).2.2.2.2.1 "customer_id" "CUSTOMER_ID" (by decide)⟩

/-- C10: a `KEY:` directive whose table part is empty is still retained —
`KEY:(ID):NAME` parses to a `RelatedInsert` with empty `target_table`
(retention tests only `key_column` and `value_column`, app.py:215), this
holds for ANY table part free of `(` and commas, and the MERGE statement
generated for the empty table name targets the empty name
(`MERGE INTO  t`). -/
theorem c10_claim :
    process_related_inserts "KEY:(ID):NAME"
      = [{ target_table := "", key_column := "ID", value_column := "NAME" }]
    ∧ (∀ tbl : String, '(' ∉ tbl.data → ',' ∉ tbl.data →
        process_related_inserts ("KEY:" ++ tbl ++ "(" ++ "ID" ++ "):" ++ "NAME")
          = [{ target_table := pyStrip tbl, key_column := "ID", value_column := "NAME" }])
    ∧ pyContains (keyMergeBlock ⟨"", "ID", "NAME"⟩) "MERGE INTO  t" = true := by
  refine ⟨by decide, ?_, by decide⟩
  intro tbl h1 hc1
  exact parseKey_wellformed tbl "ID" "NAME" (by decide) (by decide) (by decide) (by decide)
    h1 (by decide) hc1 (by decide) (by decide)

/-- C10 (witness): the general retention fact applied at the empty table
part. -/
theorem c10_witness :
    process_related_inserts ("KEY:" ++ "" ++ "(" ++ "ID" ++ "):" ++ "NAME")
      = [{ target_table := pyStrip "", key_column := "ID", value_column := "NAME" }] :=
  (c10_claim).2.1 "" (by decide) (by decide)

end MigrationAI
